import Mathlib

set_option linter.unusedVariables false
set_option linter.unreachableTactic false
set_option linter.unusedTactic false
set_option linter.unnecessarySimpa false

/-!
Verification of the Leaphy webbased-backend library-install and compile core.

The Python sources are shallowly embedded: Python strings are Lean strings
whose character lists are manipulated directly (so every definition reduces
in the kernel), Python dicts are association lists with insert-or-overwrite
semantics, the filesystem is a set of existing paths, and the network plus
the external toolchain are oracle functions carried in a World structure.
Fallible Python code returns Except.
-/

namespace Leaphy

/-- Python exception outcomes the embedded code can produce.  The http
constructor models fastapi.HTTPException with a status code and a detail
string; the other constructors model the corresponding Python runtime
errors. -/
inductive Err : Type where
  | http (status : Nat) (detail : String)
  | typeError
  | valueError
  | indexError
  | fileExists
  | fileNotFound
  | recursionError
  deriving DecidableEq

/-- Characters of a string. -/
def chars (s : String) : List Char := s.data

/-- String from a character list. -/
def ofChars (l : List Char) : String := String.mk l

/-- Python str.split with a single-character separator, on character lists:
n separators yield n plus one parts. -/
def splitChars (sep : Char) : List Char → List (List Char)
  | [] => [[]]
  | c :: cs =>
    match splitChars sep cs with
    | [] => [[c]]
    | p :: ps => if c = sep then [] :: p :: ps else (c :: p) :: ps

/-- Python str.split with a single-character separator (every separator in
the embedded code is a single character). -/
def pySplit (s : String) (sep : Char) : List String :=
  (splitChars sep (chars s)).map ofChars

/-- ASCII whitespace, as stripped by Python str.strip on the inputs the
embedded code sees. -/
def isPySpace (c : Char) : Bool :=
  c = ' ' || c = '\t' || c = '\n' || c = '\r'

/-- Python str.strip with no argument: remove leading and trailing
whitespace. -/
def pyStrip (s : String) : String :=
  ofChars ((((chars s).dropWhile isPySpace).reverse.dropWhile isPySpace).reverse)

/-- Python membership test of a single character in a string, also modelling
str.find being different from minus one. -/
def pyHasChar (s : String) (c : Char) : Bool := (chars s).contains c

/-- Auxiliary recursion for Python str.startswith. -/
def listStarts : List Char → List Char → Bool
  | _, [] => true
  | [], _ :: _ => false
  | c :: cs, p :: ps => c = p && listStarts cs ps

/-- Python str.startswith. -/
def pyStarts (s pre : String) : Bool := listStarts (chars s) (chars pre)

/-- Python str.endswith. -/
def pyEnds (s suf : String) : Bool :=
  listStarts (chars s).reverse (chars suf).reverse

/-- Python int on a string: accepts a nonempty string of decimal digits,
anything else reached by the embedded code (notably the empty string)
raises ValueError. -/
def pyInt (s : String) : Except Err Nat :=
  if (chars s) ≠ [] && (chars s).all Char.isDigit then
    .ok ((chars s).foldl (fun n c => n * 10 + (c.toNat - 48)) 0)
  else .error .valueError

/-- Python dict insertion: overwrite the value in place when the key is
already bound, otherwise append, preserving insertion order. -/
def dictInsert {α : Type} (m : List (String × α)) (k : String) (v : α) :
    List (String × α) :=
  match m with
  | [] => [(k, v)]
  | (k0, v0) :: rest =>
    if k0 = k then (k0, v) :: rest else (k0, v0) :: dictInsert rest k v

/-- Python dict lookup (dict.get), first binding wins. -/
def dictGet {α : Type} (m : List (String × α)) (k : String) : Option α :=
  match m with
  | [] => none
  | (k0, v0) :: rest => if k0 = k then some v0 else dictGet rest k

/-- Python str.replace with a one-character pattern and an empty
replacement: delete every occurrence of the character. -/
def removeChar (c : Char) : List Char → List Char
  | [] => []
  | x :: xs => if x = c then removeChar c xs else x :: removeChar c xs

/-- get_code_cache_key from deps/cache.py: delete spaces, then newlines,
from the code and hash the result.  The hash (hashlib.md5 hexdigest) is an
external pure function of the stripped string and is passed as the md5hex
parameter. -/
def get_code_cache_key (md5hex : String → String) (code : String) : String :=
  md5hex (ofChars (removeChar '\n' (removeChar ' ' (chars code))))

/-- Loop of _parse_library_properties: the dict constructor consumes the
split of each line containing an equals sign and raises ValueError when a
split does not have exactly two parts, which under the containment guard
happens exactly when the line holds two or more equals signs. -/
def parsePropsGo (acc : List (String × String)) :
    List String → Except Err (List (String × String))
  | [] => .ok acc
  | line :: rest =>
    if pyHasChar line '=' then
      match pySplit line '=' with
      | [k, v] => parsePropsGo (dictInsert acc k v) rest
      | _ => .error .valueError
    else parsePropsGo acc rest

/-- _parse_library_properties from deps/sketch.py lines 51-53: build a dict
from the key-value lines of a library.properties file. -/
def parse_library_properties (properties : String) :
    Except Err (List (String × String)) :=
  parsePropsGo [] (pySplit properties '\n')

/-- Result of one toolchain (platformio) subprocess run: exit code, the two
captured output streams, and the files the run left behind, as a list of
path-content pairs. -/
structure ProcResult where
  returncode : Int
  stdout : String
  stderr : String
  files : List (String × String)

/-- Tail of _compile_sketch in main.py (lines 62-76): after running
platformio in /tmp/build, a non-zero exit code raises HTTPException 500
whose detail is stderr.decode() + stdout.decode(); otherwise the file
.pio/build/build/firmware.hex is read and returned as the hex field of the
response (reading a missing file raises FileNotFoundError). -/
def compile_sketch (proc : ProcResult) : Except Err (List (String × String)) :=
  if proc.returncode ≠ 0 then
    .error (.http 500 (proc.stderr ++ proc.stdout))
  else
    match dictGet proc.files "/tmp/build/.pio/build/build/firmware.hex" with
    | some content => .ok [("hex", content)]
    | none => .error .fileNotFound

/-- Base64 alphabet. -/
def b64Alphabet : List Char :=
  chars "ABCDEFGHIJKLMNOPQRSTUVWXYZabcdefghijklmnopqrstuvwxyz0123456789+/"

/-- Character of the base64 alphabet at a six-bit index. -/
def b64Char (n : Nat) : Char := b64Alphabet.getD n 'A'

/-- Base64 encoding of a byte list, with padding. -/
def b64encode : List Nat → List Char
  | [] => []
  | [a] => [b64Char (a / 4), b64Char (a % 4 * 16), '=', '=']
  | [a, b] => [b64Char (a / 4), b64Char (a % 4 * 16 + b / 16), b64Char (b % 16 * 4), '=']
  | a :: b :: c :: rest =>
    b64Char (a / 4) :: b64Char (a % 4 * 16 + b / 16) ::
      b64Char (b % 16 * 4 + c / 64) :: b64Char (c % 64) :: b64encode rest

/-- Modelled from the spec: the success-path output selection of section
4.4, which no code under src implements — the firmware may be a text hex
record, a raw binary blob, or a UF2 blob; the compiler checks for each
expected output file in a fixed priority order and returns whichever is
present, base64-encoding the binary forms and returning the hex form as
text. -/
def spec_compile_output (files : List (String × String)) :
    Except Err (List (String × String)) :=
  match dictGet files "/tmp/build/.pio/build/build/firmware.hex" with
  | some content => .ok [("hex", content)]
  | none =>
    match dictGet files "/tmp/build/.pio/build/build/firmware.bin" with
    | some content => .ok [("sketch", ofChars (b64encode ((chars content).map Char.toNat)))]
    | none =>
      match dictGet files "/tmp/build/.pio/build/build/firmware.uf2" with
      | some content => .ok [("sketch", ofChars (b64encode ((chars content).map Char.toNat)))]
      | none => .error .fileNotFound

/-- The regex substitution of sketch.py line 78: delete every character of
a version string that is neither a digit nor a dot. -/
def stripNonNumeric (s : String) : String :=
  ofChars ((chars s).filter (fun c => c = '.' || c.isDigit))

/-- The comparison key of _get_latest_version in sketch.py line 63: the
tuple of ints obtained by splitting the version on dots. -/
def versionKey (s : String) : Except Err (List Nat) :=
  (pySplit s '.').mapM pyInt

/-- Python tuple comparison on tuples of ints: lexicographic, with a strict
prefix smaller than its extensions. -/
def cmpKey : List Nat → List Nat → Ordering
  | [], [] => .eq
  | [], _ :: _ => .lt
  | _ :: _, [] => .gt
  | a :: as, b :: bs =>
    if a < b then .lt else if b < a then .gt else cmpKey as bs

/-- Iteration of Python max over the remaining versions: keep the first
element whose key is maximal, replacing the current maximum only on a
strictly greater key. -/
def maxVersionGo (cur : String) (curKey : List Nat) :
    List String → Except Err String
  | [] => .ok cur
  | v :: rest =>
    match versionKey v with
    | .error e => .error e
    | .ok k =>
      if cmpKey curKey k = .lt then maxVersionGo v k rest
      else maxVersionGo cur curKey rest

/-- _get_latest_version from sketch.py lines 61-63: the maximum of the
versions list under the tuple-of-ints key; the maximum of an empty list
raises ValueError. -/
def get_latest_version (versions : List String) : Except Err String :=
  match versions with
  | [] => .error .valueError
  | v :: rest =>
    match versionKey v with
    | .error e => .error e
    | .ok k => maxVersionGo v k rest

/-- One entry of the library index (library_indexed_json values). -/
structure Repo where
  name : String
  version : String
  url : String
  archiveFileName : String
  deriving DecidableEq

/-- The bare-name branch of version resolution in sketch.py lines 78-79:
strip the non-numeric characters from every known version of the library
and take the latest. -/
def resolve_bare (repos : List Repo) : Except Err String :=
  get_latest_version (repos.map (fun r => stripNonNumeric r.version))

/-- One member of a downloaded zip archive: its path inside the archive and
its decoded content. -/
structure ZipEntry where
  path : String
  content : String
  deriving DecidableEq

/-- Observable external effects of the installer: a network download of an
archive, or a toolchain (platformio) subprocess run in a working
directory. -/
inductive Event : Type where
  | download (url : String)
  | toolchain (cwd : String)
  deriving DecidableEq

/-- The set of filesystem paths that exist (directories and files). -/
abbrev Disk := List String

/-- Python os.mkdir: raises FileExistsError when the path already exists,
otherwise creates it. -/
def mkdir (d : Disk) (p : String) : Except Err Disk :=
  if p ∈ d then .error .fileExists else .ok (p :: d)

/-- Creation of a path that may already exist (os.makedirs with exist_ok,
and plain file writes). -/
def diskAdd (d : Disk) (p : String) : Disk :=
  if p ∈ d then d else p :: d

/-- The environment of _install_libraries: connectivity, the library index
library_indexed_json, the network (mapping an archive url to the entries of
the zip it serves), the external toolchain (mapping a working directory to
the subprocess result), and buildIni, an oracle abstracting sketch.py lines
158-194 — the construction of the dependency platformio.ini, which reads
manifest files from disk and can raise, but performs no network access and
runs no subprocess, so it is modelled as an opaque fallible computation of
the dependency list, the installed-dependency dict, the supported
architectures and the disk. -/
structure World where
  internet : Bool
  catalog : List (String × List Repo)
  network : String → List ZipEntry
  toolchain : String → ProcResult
  buildIni : List String → List (String × String) → List String → Disk → Except Err Unit

/-- Type of the recursive _install_libraries call threaded through the
per-library processing. -/
abbrev InstallFun :=
  Disk → List String → List Event × Except Err (List (String × String) × Disk)

/-- Python str.removesuffix for the literal suffix .zip. -/
def removeSuffixZip (s : String) : String :=
  if pyEnds s ".zip" then ofChars ((chars s).take ((chars s).length - 4)) else s

/-- The version resolution of sketch.py lines 74-79: a request containing
an at sign takes the text after the first at sign; a bare name maps the
catalog entries (iterating None raises TypeError when the name is absent
from the index) and takes the latest stripped version. -/
def resolveVersion (repos : Option (List Repo)) (library : String) :
    Except Err String :=
  if pyHasChar library '@' then .ok ((pySplit library '@').getD 1 "")
  else
    match repos with
    | none => .error .typeError
    | some rs => resolve_bare rs

/-- The on-disk location probed by the already-installed check of sketch.py
line 82, built from the raw request string and the resolved version. -/
def cachePath (library version : String) : String :=
  "./arduino-libs/" ++ library ++ "@" ++ version

/-- Target path of an archive member under the library lib directory, per
sketch.py lines 125-131: members under ARCHIVEBASE/src/ keep their path
below src/, members directly under ARCHIVEBASE/ keep their base name,
anything else is skipped.  The source removes the archive prefix with
str.replace; the prefix is removed where it occurs at the start of the
path. -/
def extractTarget (archiveBase : String) (file : String) : Option String :=
  let root := archiveBase ++ "/src/"
  if pyStarts file root then
    some (ofChars ((chars file).drop (chars root).length))
  else
    let base := (pySplit file '/').getLastD ""
    if file = archiveBase ++ "/" ++ base then some base
    else none

/-- Values of the lines starting with the given key, as computed by the
list comprehensions of sketch.py lines 141 and 147: split each matching
line on equals signs and take index one. -/
def propLineValues (props : String) (key : String) : List String :=
  ((pySplit props '\n').filter (fun line => pyStarts line key)).map
    (fun line => (pySplit line '=').getD 1 "")

/-- State threaded through the zip-member loop of sketch.py lines 111-148:
the declared dependencies, the dict returned by their recursive install,
the declared architectures, and the filesystem. -/
structure ZipState where
  deps : List String
  inDeps : List (String × String)
  arches : List String
  disk : Disk

/-- Processing of one zip member, sketch.py lines 122-148: source files are
extracted under lib/lib; a library.properties member has its first depends
line split, stripped and recursively installed, and then its first
architectures line read — reading it from a properties file that has none
raises IndexError. -/
def processEntry (recur : InstallFun) (libraryDir : String)
    (archiveBase : String) (st : ZipState) (e : ZipEntry) :
    List Event × Except Err ZipState :=
  if pyEnds e.path ".cpp" || pyEnds e.path ".h" || pyEnds e.path ".c" ||
      pyEnds e.path ".hpp" then
    match extractTarget archiveBase e.path with
    | none => ([], .ok st)
    | some target =>
      ([], .ok { st with disk := diskAdd st.disk (libraryDir ++ "/lib/lib/" ++ target) })
  else if pyEnds e.path "library.properties" then
    match propLineValues e.content "depends=" with
    | [] =>
      match propLineValues e.content "architectures=" with
      | [] => ([], .error .indexError)
      | a :: _ => ([], .ok { st with deps := [], arches := pySplit a ',' })
    | d :: _ =>
      let deps := (pySplit d ',').map pyStrip
      let (evs, r) := recur st.disk deps
      match r with
      | .error err => (evs, .error err)
      | .ok (inDeps, disk2) =>
        match propLineValues e.content "architectures=" with
        | [] => (evs, .error .indexError)
        | a :: _ =>
          (evs, .ok { deps := deps, inDeps := inDeps,
                      arches := pySplit a ',', disk := disk2 })
  else ([], .ok st)

/-- The zip-member loop of sketch.py line 122, folding processEntry over
the archive members in order and accumulating the emitted events. -/
def processEntries (recur : InstallFun) (libraryDir archiveBase : String) :
    ZipState → List ZipEntry → List Event × Except Err ZipState
  | st, [] => ([], .ok st)
  | st, e :: rest =>
    let (evs, r) := processEntry recur libraryDir archiveBase st e
    match r with
    | .error err => (evs, .error err)
    | .ok st2 =>
      let (evs2, r2) := processEntries recur libraryDir archiveBase st2 rest
      (evs ++ evs2, r2)

/-- The build-configuration step of sketch.py lines 156-194: when the
library declared dependencies or does not support every architecture
(line 158), the dependency platformio.ini is built — the buildIni oracle
runs on the dependency data and the disk and can raise; otherwise the
constant library platformio.ini is written, which cannot fail. -/
def iniStep (w : World) (st : ZipState) (d5 : Disk) : Except Err Unit :=
  if st.deps ≠ [] || ! st.arches.contains "*" then
    w.buildIni st.deps st.inDeps st.arches d5
  else .ok ()

/-- One iteration of the library loop of _install_libraries, sketch.py
lines 72-219, parameterised by the recursive call used for dependencies:
strip the request, resolve the version, short-circuit on the
already-installed check, raise NotFound for an absent name or version,
download and unpack the archive, recursively install declared dependencies,
write the build configuration, run the toolchain, and record the version.
The writes of main.cpp, package.json, platformio.ini and
compiled_sources.json only add paths below the library directory. -/
def install_one (w : World) (recur : InstallFun) (disk : Disk) (lib : String) :
    List Event × Except Err ((String × String) × Disk) :=
  let library := pyStrip lib
  let repos := dictGet w.catalog library
  match resolveVersion repos library with
  | .error err => ([], .error err)
  | .ok versionRequired =>
    if cachePath library versionRequired ∈ disk then
      ([], .ok ((library, versionRequired), disk))
    else
      match repos with
      | none => ([], .error (.http 404 ("Library " ++ library ++ " not found")))
      | some [] => ([], .error (.http 404 ("Library " ++ library ++ " not found")))
      | some (r0 :: rs) =>
        match (r0 :: rs).find? (fun r => r.version = versionRequired) with
        | none =>
          ([], .error (.http 404 ("Library " ++ library ++
            " not found, with version " ++ versionRequired)))
        | some repo =>
          let libraryDir := "./arduino-libs/" ++ repo.name ++ "@" ++ repo.version
          let zip := w.network repo.url
          let ev0 : List Event := [.download repo.url]
          match mkdir disk libraryDir with
          | .error err => (ev0, .error err)
          | .ok d1 =>
            match mkdir d1 (libraryDir ++ "/src") with
            | .error err => (ev0, .error err)
            | .ok d2 =>
              match mkdir d2 (libraryDir ++ "/lib") with
              | .error err => (ev0, .error err)
              | .ok d3 =>
                match mkdir d3 (libraryDir ++ "/lib/lib") with
                | .error err => (ev0, .error err)
                | .ok d4 =>
                  let st0 : ZipState :=
                    { deps := [], inDeps := [], arches := [], disk := d4 }
                  let archiveBase := removeSuffixZip repo.archiveFileName
                  let (evs, r) := processEntries recur libraryDir archiveBase st0 zip
                  match r with
                  | .error err => (ev0 ++ evs, .error err)
                  | .ok st =>
                    let d5 := diskAdd (diskAdd st.disk
                      (libraryDir ++ "/src/main.cpp")) (libraryDir ++ "/package.json")
                    match iniStep w st d5 with
                    | .error err => (ev0 ++ evs, .error err)
                    | .ok _ =>
                      let d6 := diskAdd d5 (libraryDir ++ "/platformio.ini")
                      let proc := w.toolchain libraryDir
                      if proc.returncode ≠ 0 then
                        (ev0 ++ evs ++ [.toolchain libraryDir],
                          .error (.http 500 (proc.stderr ++ proc.stdout)))
                      else
                        let d7 := diskAdd d6 (libraryDir ++ "/compiled_sources.json")
                        (ev0 ++ evs ++ [.toolchain libraryDir],
                          .ok ((library, versionRequired), d7))

/-- The library loop of _install_libraries, folding install_one over the
request list in order and collecting the installed-versions dict. -/
def install_list (w : World) (recur : InstallFun)
    (acc : List (String × String)) :
    Disk → List String → List Event × Except Err (List (String × String) × Disk)
  | disk, [] => ([], .ok (acc, disk))
  | disk, lib :: rest =>
    let (evs, r) := install_one w recur disk lib
    match r with
    | .error err => (evs, .error err)
    | .ok ((k, v), disk2) =>
      let (evs2, r2) := install_list w recur (dictInsert acc k v) disk2 rest
      (evs ++ evs2, r2)

/-- _install_libraries from sketch.py lines 65-220: return the empty dict
at once when the connectivity check fails, otherwise process the requests
in order.  The fuel argument models the Python recursion limit: each
recursive dependency install runs with one unit less, and exhausted fuel is
a RecursionError. -/
def install_libraries (w : World) :
    Nat → Disk → List String → List Event × Except Err (List (String × String) × Disk)
  | 0, _, _ => ([], .error .recursionError)
  | fuel + 1, disk, libs =>
    if w.internet then install_list w (install_libraries w fuel) [] disk libs
    else ([], .ok ([], disk))

/-- Phase of one compile request with respect to the counting semaphore of
main.py line 35: idle (request not yet at the semaphore), waiting
(suspended entering the async-with block), holding (inside the block with
no toolchain subprocess live), running (inside the block with a platformio
subprocess live — the code awaits every subprocess, so one request has at
most one live subprocess at a time), done (block exited and permit
released; a code-cache hit goes from idle to done without touching the
semaphore). -/
inductive Phase : Type where
  | idle | waiting | holding | running | done
  deriving DecidableEq

/-- A request in this phase occupies a semaphore permit. -/
def Phase.inUse : Phase → Bool
  | .holding => true
  | .running => true
  | _ => false

/-- A request in this phase has a live toolchain subprocess. -/
def Phase.isRunning : Phase → Bool
  | .running => true
  | _ => false

/-- Instantaneous state of the compile endpoint: the free-permit count of
asyncio.Semaphore(settings.max_concurrent_tasks) and the phase of every
request. -/
structure PoolState where
  avail : Nat
  jobs : List Phase
  deriving DecidableEq

/-- Interleaving semantics of compile_cpp in main.py lines 79-99 around the
semaphore: a request may arrive, finish immediately on a cache hit, acquire
a permit when one is free, spawn and await toolchain subprocesses while
holding, and release its permit on exit. -/
inductive PoolStep : PoolState → PoolState → Prop where
  | arrive (s : PoolState) (j : Nat) (h : s.jobs.get? j = some .idle) :
      PoolStep s { s with jobs := s.jobs.set j .waiting }
  | cacheHit (s : PoolState) (j : Nat) (h : s.jobs.get? j = some .idle) :
      PoolStep s { s with jobs := s.jobs.set j .done }
  | acquire (s : PoolState) (j : Nat) (a : Nat)
      (h : s.jobs.get? j = some .waiting) (ha : s.avail = a + 1) :
      PoolStep s { avail := a, jobs := s.jobs.set j .holding }
  | spawn (s : PoolState) (j : Nat) (h : s.jobs.get? j = some .holding) :
      PoolStep s { s with jobs := s.jobs.set j .running }
  | finish (s : PoolState) (j : Nat) (h : s.jobs.get? j = some .running) :
      PoolStep s { s with jobs := s.jobs.set j .holding }
  | release (s : PoolState) (j : Nat) (h : s.jobs.get? j = some .holding) :
      PoolStep s { avail := s.avail + 1, jobs := s.jobs.set j .done }

/-- Initial state: n free permits (settings.max_concurrent_tasks), m idle
requests. -/
def initPool (n m : Nat) : PoolState :=
  { avail := n, jobs := List.replicate m .idle }

/-- Reachability from the initial state by interleaved steps. -/
def PoolReach (n m : Nat) (s : PoolState) : Prop :=
  Relation.ReflTransGen PoolStep (initPool n m) s

/-- Number of requests currently occupying a semaphore permit. -/
def inUseCount (s : PoolState) : Nat := s.jobs.countP Phase.inUse

/-- Number of live toolchain subprocesses. -/
def runningCount (s : PoolState) : Nat := s.jobs.countP Phase.isRunning

/-- A character survives the deletions of get_code_cache_key: it is neither
a space nor a newline. -/
def keepChar (ch : Char) : Bool := ! (ch = ' ' || ch = '\n')

/-- Text before the first equals sign of a line. -/
def lineKey (line : String) : String :=
  ofChars ((chars line).takeWhile (fun x => x ≠ '='))

/-- Text after the first equals sign of a line. -/
def lineVal (line : String) : String :=
  ofChars (((chars line).dropWhile (fun x => x ≠ '=')).drop 1)

/-- The map a well-formed properties file should parse to: for each line
containing an equals sign, bind the text before it to the text after it,
later lines overwriting earlier ones; lines without an equals sign are
ignored. -/
def claimPropsMap (properties : String) : List (String × String) :=
  (pySplit properties '\n').foldl
    (fun m line =>
      if pyHasChar line '=' then dictInsert m (lineKey line) (lineVal line) else m)
    []

/-- A toolchain oracle that always succeeds and writes nothing. -/
def okToolchain : String → ProcResult := fun _ => ⟨0, "", "", []⟩

/-- A buildIni oracle that always succeeds. -/
def okBuildIni : List String → List (String × String) → List String → Disk → Except Err Unit :=
  fun _ _ _ _ => .ok ()

/-- World with no connectivity, used to witness the offline short-circuit. -/
def offlineWorld : World :=
  { internet := false, catalog := [], network := fun _ => [],
    toolchain := okToolchain, buildIni := okBuildIni }

/-- World whose index knows library Foo at version 1.0.0 only. -/
def fooWorld : World :=
  { internet := true,
    catalog := [("Foo", [⟨"Foo", "1.0.0", "u", "Foo.zip"⟩])],
    network := fun _ => [],
    toolchain := okToolchain, buildIni := okBuildIni }

/-- World with an empty library index. -/
def emptyIndexWorld : World :=
  { internet := true, catalog := [], network := fun _ => [],
    toolchain := okToolchain, buildIni := okBuildIni }

/-- Catalog entry of the dependent library used to witness dependency
ordering and error propagation. -/
def mainRepo : Repo := ⟨"Main", "1.0.0", "um", "Main.zip"⟩

/-- The library.properties member of the Main archive, declaring one
dependency. -/
def mainProps : ZipEntry :=
  ⟨"Main/library.properties", "depends=Dep@9.9.9\narchitectures=*"⟩

/-- World whose index knows Main, whose archive declares a dependency on
Dep@9.9.9, a name absent from the index. -/
def depWorld : World :=
  { internet := true,
    catalog := [("Main", [mainRepo])],
    network := fun u => if u = "um" then [mainProps] else [],
    toolchain := okToolchain, buildIni := okBuildIni }

/-- Repos offering the version set of the C3 test case. -/
def threeVersionRepos : List Repo :=
  [⟨"A", "1.2.0", "u", "a"⟩, ⟨"A", "1.10.0", "u", "a"⟩, ⟨"A", "2.0.0", "u", "a"⟩]

/-! Helper lemmas. -/

theorem removeChar_space_newline (l : List Char) :
    removeChar '\n' (removeChar ' ' l) = l.filter keepChar := by
  induction l with
  | nil => rfl
  | cons x xs ih =>
    by_cases hs : x = ' '
    · subst hs
      simp [removeChar, keepChar, ih]
    · by_cases hn : x = '\n'
      · subst hn
        simp [removeChar, keepChar, ih]
      · simp [removeChar, hs, hn, keepChar, ih]

theorem dictGet_not_mem {α : Type} (m : List (String × α)) (k : String)
    (h : ∀ p ∈ m, p.1 ≠ k) : dictGet m k = none := by
  induction m with
  | nil => rfl
  | cons p rest ih =>
    have h1 : p.1 ≠ k := h p (List.mem_cons_self p rest)
    have h2 : ∀ q ∈ rest, q.1 ≠ k := fun q hq => h q (List.mem_cons_of_mem p hq)
    cases p with
    | mk k0 v0 =>
      simp only [dictGet, if_neg h1]
      exact ih h2

theorem dictGet_append_right_irrelevant {α : Type} (m m2 : List (String × α))
    (k : String) (h : ∀ p ∈ m2, p.1 ≠ k) :
    dictGet (m ++ m2) k = dictGet m k := by
  induction m with
  | nil => simpa [dictGet] using dictGet_not_mem m2 k h
  | cons p rest ih =>
    cases p with
    | mk k0 v0 =>
      by_cases hk : k0 = k
      · simp [dictGet, hk]
      · simpa [dictGet, hk] using ih

/-! Claims.  Each claim Cn of the specification has exactly one theorem
below, with its witness or counterexample next to it. -/

/-- C9: the compile and minify result cache key is invariant under
whitespace — get_code_cache_key returns the same key for any two code
strings that agree after deleting every space and newline character, so the
endpoints of main.py, which look up the shared code_cache by this key,
serve one such input's cached result for the other. -/
theorem c9_cache_key_whitespace_invariant (md5hex : String → String)
    (code1 code2 : String)
    (h : (chars code1).filter keepChar = (chars code2).filter keepChar) :
    get_code_cache_key md5hex code1 = get_code_cache_key md5hex code2 := by
  unfold get_code_cache_key
  rw [removeChar_space_newline, removeChar_space_newline, h]

/-- Witness for C9 at two concrete strings that differ only in
whitespace. -/
theorem c9_witness :
    get_code_cache_key (fun s => s) "a b" = get_code_cache_key (fun s => s) "ab\n" :=
  c9_cache_key_whitespace_invariant (fun s => s) "a b" "ab\n" (by decide)

/-- C6 counterexample: a failed toolchain run with stdout out and stderr
err yields the diagnostic err followed by out, not the claimed
concatenation of standard output followed by standard error. -/
theorem c6_counterexample :
    compile_sketch ⟨1, "out", "err", []⟩ = .error (.http 500 ("err" ++ "out")) ∧
    ("err" ++ "out" : String) ≠ "out" ++ "err" :=
  ⟨rfl, by decide⟩

/-- C6 as amended: on every non-zero toolchain exit code the compile fails
with HTTPException 500 whose diagnostic text is exactly the captured
standard-error stream followed by the standard-output stream. -/
theorem c6_error_text (proc : ProcResult) (h : proc.returncode ≠ 0) :
    compile_sketch proc = .error (.http 500 (proc.stderr ++ proc.stdout)) := by
  unfold compile_sketch
  rw [if_pos h]

/-- Witness for C6 at a concrete failed run. -/
theorem c6_witness : compile_sketch ⟨2, "o", "e", []⟩ = .error (.http 500 "eo") :=
  c6_error_text ⟨2, "o", "e", []⟩ (by decide)

/-- C7: with no internet connectivity, _install_libraries returns the empty
dict without raising, performs no download and no toolchain invocation, and
leaves the filesystem unchanged, whatever the request list. -/
theorem c7_offline_noop (w : World) (fuel : Nat) (disk : Disk)
    (libs : List String) (h : w.internet = false) :
    install_libraries w (fuel + 1) disk libs = ([], .ok ([], disk)) := by
  simp [install_libraries, h]

/-- Witness for C7 at a concrete offline world. -/
theorem c7_witness :
    install_libraries offlineWorld 1 ["d"] ["LibX"] = ([], .ok ([], ["d"])) :=
  c7_offline_noop offlineWorld 0 ["d"] ["LibX"] rfl

/-- C8 counterexample: a successful toolchain run that produced a binary
firmware blob and no hex record makes _compile_sketch raise
FileNotFoundError, while the specified three-file priority selection would
return the base64 of the binary — the code checks a single output file, not
three. -/
theorem c8_counterexample :
    compile_sketch ⟨0, "", "", [("/tmp/build/.pio/build/build/firmware.bin", "XYZ")]⟩ =
      .error .fileNotFound ∧
    spec_compile_output [("/tmp/build/.pio/build/build/firmware.bin", "XYZ")] =
      .ok [("sketch", "WFla")] :=
  ⟨rfl, rfl⟩

/-- C8 as amended: on a successful toolchain run the compiler reads exactly
one expected output file, the text hex record, returning it as text under
the hex key and failing when it is absent; binary and UF2 outputs are
neither checked nor returned, and their presence does not affect the
result. -/
theorem c8_hex_only (proc : ProcResult) (h : proc.returncode = 0) (b u : String) :
    compile_sketch proc =
      (match dictGet proc.files "/tmp/build/.pio/build/build/firmware.hex" with
        | some content => .ok [("hex", content)]
        | none => .error .fileNotFound) ∧
    compile_sketch { proc with files := proc.files ++
        [("/tmp/build/.pio/build/build/firmware.bin", b),
         ("/tmp/build/.pio/build/build/firmware.uf2", u)] } =
      compile_sketch proc := by
  have hirr : ∀ p ∈ [("/tmp/build/.pio/build/build/firmware.bin", b),
      ("/tmp/build/.pio/build/build/firmware.uf2", u)],
      p.1 ≠ "/tmp/build/.pio/build/build/firmware.hex" := by
    intro p hp
    simp only [List.mem_cons, List.not_mem_nil, or_false] at hp
    rcases hp with rfl | rfl
    · show ("/tmp/build/.pio/build/build/firmware.bin" : String) ≠ _
      decide
    · show ("/tmp/build/.pio/build/build/firmware.uf2" : String) ≠ _
      decide
  constructor
  · simp [compile_sketch, h]
  · simp [compile_sketch, h,
      dictGet_append_right_irrelevant proc.files _ _ hirr]

/-- Witness for C8 at a concrete successful run with a hex record. -/
theorem c8_witness :
    compile_sketch ⟨0, "", "", [("/tmp/build/.pio/build/build/firmware.hex", "H")]⟩ =
      .ok [("hex", "H")] := by
  have h := (c8_hex_only ⟨0, "", "",
    [("/tmp/build/.pio/build/build/firmware.hex", "H")]⟩ rfl "B" "U").1
  exact h

/-- A successful mkdir keeps every existing path and adds the new one. -/
theorem mkdir_facts {d : Disk} {p : String} {d2 : Disk} (h : mkdir d p = .ok d2) :
    d ⊆ d2 ∧ p ∈ d2 := by
  unfold mkdir at h
  split at h
  · exact absurd h (by simp)
  · simp only [Except.ok.injEq] at h
    subst h
    exact ⟨fun x hx => List.mem_cons_of_mem p hx, List.mem_cons_self p d⟩

/-- diskAdd keeps every existing path. -/
theorem diskAdd_sub (d : Disk) (p : String) : d ⊆ diskAdd d p := by
  intro x hx
  unfold diskAdd
  by_cases hp : p ∈ d
  · rwa [if_pos hp]
  · rw [if_neg hp]
    exact List.mem_cons_of_mem p hx

/-- diskAdd makes its path present. -/
theorem mem_diskAdd (d : Disk) (p : String) : p ∈ diskAdd d p := by
  unfold diskAdd
  by_cases hp : p ∈ d
  · rwa [if_pos hp]
  · rw [if_neg hp]
    exact List.mem_cons_self p d

/-- Processing one zip member only grows the set of existing paths,
provided the recursive installer does. -/
theorem processEntry_mono (recur : InstallFun) (ld ab : String)
    (hmono : ∀ d ls E2 m d3, recur d ls = (E2, .ok (m, d3)) → d ⊆ d3)
    (st : ZipState) (e : ZipEntry) (E : List Event) (st2 : ZipState)
    (h : processEntry recur ld ab st e = (E, .ok st2)) :
    st.disk ⊆ st2.disk := by
  by_cases hsrc : (pyEnds e.path ".cpp" || pyEnds e.path ".h" || pyEnds e.path ".c" ||
      pyEnds e.path ".hpp") = true
  · cases het : extractTarget ab e.path with
    | none =>
      simp only [processEntry, hsrc, if_true, het, Prod.mk.injEq, Except.ok.injEq] at h
      obtain ⟨rfl, rfl⟩ := h
      exact fun x hx => hx
    | some target =>
      simp only [processEntry, hsrc, if_true, het, Prod.mk.injEq, Except.ok.injEq] at h
      obtain ⟨rfl, rfl⟩ := h
      exact diskAdd_sub st.disk _
  · rw [Bool.not_eq_true] at hsrc
    by_cases hprop : pyEnds e.path "library.properties" = true
    · cases hdep : propLineValues e.content "depends=" with
      | nil =>
        cases harch : propLineValues e.content "architectures=" with
        | nil => simp [processEntry, hsrc, hprop, hdep, harch] at h
        | cons a as =>
          simp only [processEntry, hsrc, Bool.false_eq_true, if_false, hprop, if_true,
            hdep, harch, Prod.mk.injEq, Except.ok.injEq] at h
          obtain ⟨rfl, rfl⟩ := h
          exact fun x hx => hx
      | cons d ds =>
        rcases hrec : recur st.disk ((pySplit d ',').map pyStrip) with ⟨evs, r⟩
        cases r with
        | error err => simp [processEntry, hsrc, hprop, hdep, hrec] at h
        | ok pr =>
          rcases pr with ⟨inDeps, disk2⟩
          cases harch : propLineValues e.content "architectures=" with
          | nil => simp [processEntry, hsrc, hprop, hdep, hrec, harch] at h
          | cons a as =>
            simp only [processEntry, hsrc, Bool.false_eq_true, if_false, hprop, if_true,
              hdep, hrec, harch, Prod.mk.injEq, Except.ok.injEq] at h
            obtain ⟨rfl, rfl⟩ := h
            exact hmono st.disk _ evs inDeps disk2 hrec
    · rw [Bool.not_eq_true] at hprop
      simp only [processEntry, hsrc, hprop, Bool.false_eq_true, if_false,
        Prod.mk.injEq, Except.ok.injEq] at h
      obtain ⟨rfl, rfl⟩ := h
      exact fun x hx => hx

/-- The zip loop only grows the set of existing paths, provided the
recursive installer does. -/
theorem processEntries_mono (recur : InstallFun) (ld ab : String)
    (hmono : ∀ d ls E2 m d3, recur d ls = (E2, .ok (m, d3)) → d ⊆ d3) :
    ∀ (es : List ZipEntry) (st : ZipState) (E : List Event) (st2 : ZipState),
      processEntries recur ld ab st es = (E, .ok st2) → st.disk ⊆ st2.disk := by
  intro es
  induction es with
  | nil =>
    intro st E st2 h
    simp only [processEntries, Prod.mk.injEq, Except.ok.injEq] at h
    obtain ⟨rfl, rfl⟩ := h
    exact fun x hx => hx
  | cons e es ih =>
    intro st E st2 h
    simp only [processEntries] at h
    rcases hpe : processEntry recur ld ab st e with ⟨evs, r⟩
    simp only [hpe] at h
    cases r with
    | error err => simp at h
    | ok stm =>
      rcases hrest : processEntries recur ld ab stm es with ⟨E2, r2⟩
      simp only [hrest] at h
      simp only [Prod.mk.injEq] at h
      obtain ⟨rfl, hr2⟩ := h
      cases r2 with
      | error err => simp at hr2
      | ok st2x =>
        cases hr2
        exact List.Subset.trans (processEntry_mono recur ld ab hmono st e evs stm hpe)
          (ih stm E2 st2 hrest)

/-- Facts about a per-request iteration that returned ok: the filesystem
only grew, the recorded pair is the stripped request with its resolved
version, and either the probed cache path was already present or the
install created the library directory named by the matched catalog
entry. -/
theorem install_one_ok_facts (w : World) (recur : InstallFun)
    (hmono : ∀ d ls E2 m d3, recur d ls = (E2, .ok (m, d3)) → d ⊆ d3)
    (disk : Disk) (lib : String) (E : List Event) (kvp : String × String)
    (d2 : Disk) (h : install_one w recur disk lib = (E, .ok (kvp, d2))) :
    disk ⊆ d2 ∧
    ∃ v, resolveVersion (dictGet w.catalog (pyStrip lib)) (pyStrip lib) = .ok v ∧
      kvp = (pyStrip lib, v) ∧
      (cachePath (pyStrip lib) v ∈ d2 ∨
        ∃ repos repo, dictGet w.catalog (pyStrip lib) = some repos ∧
          repos.find? (fun r => r.version = v) = some repo ∧
          ("./arduino-libs/" ++ repo.name ++ "@" ++ repo.version) ∈ d2) := by
  cases hres : resolveVersion (dictGet w.catalog (pyStrip lib)) (pyStrip lib) with
  | error e => simp [install_one, hres] at h
  | ok v =>
    by_cases hcache : cachePath (pyStrip lib) v ∈ disk
    · simp only [install_one, hres] at h
      rw [if_pos hcache] at h
      simp only [Prod.mk.injEq, Except.ok.injEq] at h
      obtain ⟨rfl, hkvp, rfl⟩ := h
      exact ⟨fun x hx => hx, v, rfl, hkvp.symm, Or.inl hcache⟩
    · cases hget : dictGet w.catalog (pyStrip lib) with
      | none =>
        simp only [install_one, hres] at h
        rw [if_neg hcache] at h
        simp [hget] at h
      | some repos =>
        cases repos with
        | nil =>
          simp only [install_one, hres] at h
          rw [if_neg hcache] at h
          simp [hget] at h
        | cons r0 rs =>
          cases hfind : (r0 :: rs).find? (fun r => r.version = v) with
          | none =>
            simp only [install_one, hres] at h
            rw [if_neg hcache] at h
            simp [hget, hfind] at h
          | some repo =>
            simp only [install_one, hres] at h
            rw [if_neg hcache] at h
            simp only [hget, hfind] at h
            generalize hLD : "./arduino-libs/" ++ repo.name ++ "@" ++ repo.version = LD at h ⊢
            cases hm1 : mkdir disk LD with
            | error e1 => simp [hm1] at h
            | ok dm1 =>
              simp only [hm1] at h
              cases hm2 : mkdir dm1 (LD ++ "/src") with
              | error e2 => simp [hm2] at h
              | ok dm2 =>
                simp only [hm2] at h
                cases hm3 : mkdir dm2 (LD ++ "/lib") with
                | error e3 => simp [hm3] at h
                | ok dm3 =>
                  simp only [hm3] at h
                  cases hm4 : mkdir dm3 (LD ++ "/lib/lib") with
                  | error e4 => simp [hm4] at h
                  | ok dm4 =>
                    simp only [hm4] at h
                    rcases hpz : processEntries recur LD
                        (removeSuffixZip repo.archiveFileName)
                        { deps := [], inDeps := [], arches := [], disk := dm4 }
                        (w.network repo.url) with ⟨evs, rz⟩
                    simp only [hpz] at h
                    cases rz with
                    | error ez => simp at h
                    | ok st =>
                      dsimp only at h
                      cases hbi : iniStep w st (diskAdd (diskAdd st.disk
                          (LD ++ "/src/main.cpp")) (LD ++ "/package.json")) with
                      | error eb => simp [hbi] at h
                      | ok u =>
                        simp only [hbi] at h
                        split at h <;> simp only [Prod.mk.injEq,
                          Except.ok.injEq, reduceCtorEq, and_false, false_and] at h
                        obtain ⟨rfl, hkvp, rfl⟩ := h
                        have f1 := mkdir_facts hm1
                        have f2 := mkdir_facts hm2
                        have f3 := mkdir_facts hm3
                        have f4 := mkdir_facts hm4
                        have fz : dm4 ⊆ st.disk :=
                          processEntries_mono recur LD
                            (removeSuffixZip repo.archiveFileName) hmono
                            (w.network repo.url)
                            { deps := [], inDeps := [], arches := [], disk := dm4 }
                            evs st hpz
                        have f5 : st.disk ⊆
                            diskAdd (diskAdd st.disk (LD ++ "/src/main.cpp"))
                              (LD ++ "/package.json") :=
                          List.Subset.trans (diskAdd_sub _ _) (diskAdd_sub _ _)
                        have f6 :
                            diskAdd (diskAdd st.disk (LD ++ "/src/main.cpp"))
                              (LD ++ "/package.json") ⊆
                            diskAdd (diskAdd (diskAdd (diskAdd st.disk
                                (LD ++ "/src/main.cpp")) (LD ++ "/package.json"))
                              (LD ++ "/platformio.ini")) (LD ++ "/compiled_sources.json") :=
                          List.Subset.trans (diskAdd_sub _ _) (diskAdd_sub _ _)
                        have hchain : disk ⊆ diskAdd (diskAdd (diskAdd (diskAdd st.disk
                            (LD ++ "/src/main.cpp")) (LD ++ "/package.json"))
                            (LD ++ "/platformio.ini")) (LD ++ "/compiled_sources.json") :=
                          List.Subset.trans f1.1 (List.Subset.trans f2.1
                            (List.Subset.trans f3.1 (List.Subset.trans f4.1
                              (List.Subset.trans fz (List.Subset.trans f5 f6)))))
                        refine ⟨hchain, v, rfl, hkvp.symm,
                          Or.inr ⟨r0 :: rs, repo, rfl, hfind, ?_⟩⟩
                        rw [hLD]
                        exact f6 (f5 (fz (f4.1 (f3.1 (f2.1 f1.2)))))

/-- The request loop only grows the set of existing paths, provided the
recursive installer does. -/
theorem install_list_mono (w : World) (recur : InstallFun)
    (hmono : ∀ d ls E2 m d3, recur d ls = (E2, .ok (m, d3)) → d ⊆ d3) :
    ∀ (libs : List String) (acc : List (String × String)) (disk : Disk)
      (E : List Event) (m : List (String × String)) (d2 : Disk),
      install_list w recur acc disk libs = (E, .ok (m, d2)) → disk ⊆ d2 := by
  intro libs
  induction libs with
  | nil =>
    intro acc disk E m d2 h
    simp only [install_list, Prod.mk.injEq, Except.ok.injEq] at h
    obtain ⟨rfl, rfl, rfl⟩ := h
    exact fun x hx => hx
  | cons lib rest ih =>
    intro acc disk E m d2 h
    simp only [install_list] at h
    rcases hone : install_one w recur disk lib with ⟨evs, r⟩
    simp only [hone] at h
    cases r with
    | error err => simp at h
    | ok pr =>
      rcases pr with ⟨⟨k, vr⟩, dmid⟩
      rcases hrest : install_list w recur (dictInsert acc k vr) dmid rest with ⟨E2, r2⟩
      simp only [hrest] at h
      simp only [Prod.mk.injEq] at h
      obtain ⟨rfl, hr2⟩ := h
      cases r2 with
      | error err => simp at hr2
      | ok pr2 =>
        cases hr2
        exact List.Subset.trans
          ((install_one_ok_facts w recur hmono disk lib evs (k, vr) dmid hone).1)
          (ih (dictInsert acc k vr) dmid E2 m d2 hrest)

/-- A successful install only grows the set of existing paths. -/
theorem install_libraries_mono (w : World) :
    ∀ (fuel : Nat) (disk : Disk) (libs : List String) (E : List Event)
      (m : List (String × String)) (d2 : Disk),
      install_libraries w fuel disk libs = (E, .ok (m, d2)) → disk ⊆ d2 := by
  intro fuel
  induction fuel with
  | zero =>
    intro disk libs E m d2 h
    simp [install_libraries] at h
  | succ fuel ih =>
    intro disk libs E m d2 h
    simp only [install_libraries] at h
    by_cases hint : w.internet = true
    · rw [if_pos hint] at h
      exact install_list_mono w (install_libraries w fuel)
        (fun d ls E2 mm d3 hh => ih d ls E2 mm d3 hh) libs [] disk E m d2 h
    · rw [if_neg hint] at h
      simp only [Prod.mk.injEq, Except.ok.injEq] at h
      obtain ⟨rfl, rfl, rfl⟩ := h
      exact fun x hx => hx

/-- A single request whose probed cache path exists is recorded at once
with no events and an unchanged disk. -/
theorem install_singleton_hit (w : World) (fuel : Nat) (disk : Disk)
    (lib library v : String)
    (hint : w.internet = true) (hlib : pyStrip lib = library)
    (hres : resolveVersion (dictGet w.catalog library) library = .ok v)
    (hcache : cachePath library v ∈ disk) :
    install_libraries w (fuel + 1) disk [lib] = ([], .ok ([(library, v)], disk)) := by
  simp [install_libraries, hint, install_list, install_one, hlib, hres, hcache,
    dictInsert]

/-- C2 counterexample: the request Foo at 1.0.0, with Foo in the index and
with the artifact directory arduino-libs/Foo@1.0.0 (the claimed cache key
name@version) already on disk, is not a cache hit: the already-installed
check probes the doubled path arduino-libs/Foo@1.0.0@1.0.0, misses, and the
call then raises 404 — the index is keyed by bare names, so the lookup of
the raw request string found nothing — instead of recording the version. -/
theorem c2_counterexample :
    cachePath "Foo" "1.0.0" ∈ (["./arduino-libs/Foo@1.0.0"] : Disk) ∧
    install_libraries fooWorld 3 ["./arduino-libs/Foo@1.0.0"] ["Foo@1.0.0"] =
      ([], .error (.http 404 "Library Foo@1.0.0 not found")) :=
  ⟨by decide, rfl⟩

/-- C2 as amended: the already-installed check probes the path built from
the raw request string, arduino-libs/REQUEST@VERSION; whenever that path
exists the request is recorded with its resolved version and the call
performs no download and no toolchain invocation and leaves the disk
unchanged.  Consequently the second of two sequential installs of the same
bare-name request — whose probe path coincides with the name@version
directory the first install created from the matched catalog entry — is a
pure cache hit, while an explicit name@version request probes
name@version@version, which installation never creates. -/
theorem c2_cache_hit :
    (∀ (w : World) (fuel : Nat) (disk : Disk) (lib library v : String),
      w.internet = true →
      pyStrip lib = library →
      resolveVersion (dictGet w.catalog library) library = .ok v →
      cachePath library v ∈ disk →
      install_libraries w (fuel + 1) disk [lib] = ([], .ok ([(library, v)], disk))) ∧
    (∀ (w : World) (fuel fuel2 : Nat) (disk : Disk) (lib library v : String)
        (repos : List Repo) (repo : Repo) (E : List Event)
        (m : List (String × String)) (d1 : Disk),
      w.internet = true →
      pyStrip lib = library →
      resolveVersion (dictGet w.catalog library) library = .ok v →
      dictGet w.catalog library = some repos →
      repos.find? (fun r => r.version = v) = some repo →
      repo.name = library →
      repo.version = v →
      install_libraries w (fuel + 1) disk [lib] = (E, .ok (m, d1)) →
      install_libraries w (fuel2 + 1) d1 [lib] = ([], .ok ([(library, v)], d1))) := by
  constructor
  · intro w fuel disk lib library v hint hlib hres hcache
    exact install_singleton_hit w fuel disk lib library v hint hlib hres hcache
  · intro w fuel fuel2 disk lib library v repos repo E m d1 hint hlib hres hget
      hfind hname hver hrun
    simp only [install_libraries] at hrun
    rw [if_pos hint] at hrun
    simp only [install_list] at hrun
    rcases hone : install_one w (install_libraries w fuel) disk lib with ⟨evs, r⟩
    simp only [hone] at hrun
    cases r with
    | error err => simp at hrun
    | ok pr =>
      rcases pr with ⟨⟨k, vr⟩, dmid⟩
      simp only [install_list] at hrun
      simp only [Prod.mk.injEq, Except.ok.injEq] at hrun
      obtain ⟨rfl, rfl, rfl⟩ := hrun
      obtain ⟨hsub, v2, hres2, hkvp, hdisj⟩ :=
        install_one_ok_facts w (install_libraries w fuel)
          (fun d ls E2 mm d3 hh => install_libraries_mono w fuel d ls E2 mm d3 hh)
          disk lib evs (k, vr) dmid hone
      rw [hlib] at hres2 hdisj
      have hv2 : v2 = v := by
        have := hres2.symm.trans hres
        exact Except.ok.inj this
      subst hv2
      have hcp : cachePath library v2 ∈ dmid := by
        rcases hdisj with hcp | ⟨repos2, repo2, hget2, hfind2, hmem⟩
        · exact hcp
        · have he1 : repos2 = repos := by
            rw [hget] at hget2
            exact (Option.some.inj hget2).symm
          subst he1
          have he2 : repo2 = repo := by
            rw [hfind] at hfind2
            exact (Option.some.inj hfind2).symm
          subst he2
          have hpath : "./arduino-libs/" ++ repo2.name ++ "@" ++ repo2.version =
              cachePath library v2 := by
            rw [hname, hver]
            rfl
          rwa [hpath] at hmem
      exact install_singleton_hit w fuel2 dmid lib library v2 hint hlib hres hcp

/-- Witness for C2 at a concrete cached bare-name request. -/
theorem c2_witness :
    install_libraries fooWorld 1 [cachePath "Foo" "1.0.0"] ["Foo"] =
      ([], .ok ([("Foo", "1.0.0")], [cachePath "Foo" "1.0.0"])) :=
  (c2_cache_hit).1 fooWorld 0 [cachePath "Foo" "1.0.0"] "Foo" "Foo" "1.0.0"
    rfl rfl rfl (by decide)

/-- Splitting the zip loop over an append when the first part succeeds. -/
theorem processEntries_append_ok (recur : InstallFun) (ld ab : String)
    (xs ys : List ZipEntry) :
    ∀ (st st2 : ZipState) (E : List Event),
      processEntries recur ld ab st xs = (E, .ok st2) →
      processEntries recur ld ab st (xs ++ ys) =
        (E ++ (processEntries recur ld ab st2 ys).1,
         (processEntries recur ld ab st2 ys).2) := by
  induction xs with
  | nil =>
    intro st st2 E h
    simp only [processEntries, Prod.mk.injEq, Except.ok.injEq] at h
    obtain ⟨rfl, rfl⟩ := h
    simp
  | cons e es ih =>
    intro st st2 E h
    simp only [processEntries] at h
    rcases hpe : processEntry recur ld ab st e with ⟨evs, r⟩
    simp only [hpe] at h
    cases r with
    | error err => simp at h
    | ok stm =>
      rcases hrest : processEntries recur ld ab stm es with ⟨E2, r2⟩
      simp only [hrest] at h
      simp only [Prod.mk.injEq] at h
      obtain ⟨rfl, hr2⟩ := h
      cases r2 with
      | error err => simp at hr2
      | ok st2x =>
        cases hr2
        have hx := ih stm st2 E2 hrest
        show processEntries recur ld ab st (e :: (es ++ ys)) = _
        simp only [processEntries, hpe, hx]
        simp [List.append_assoc]

/-- C5: for a library archive whose library.properties declares
dependencies, the recursive _install_libraries call runs while the archive
members are processed, strictly before the dependent library's own
toolchain compile: if the dependency install fails — for example with the
404 NotFound of an unknown name-at-version — the dependent install fails
with that same error and never reaches its compile step (part one); if it
succeeds, the whole event trace is the archive download, then the zip
members before the properties file, then the complete dependency-install
trace, then the remaining members, and only then the dependent's toolchain
invocation (part two). -/
theorem c5_deps_before_compile
    (w : World) (fuel : Nat) (disk : Disk) (lib library v : String)
    (r0 : Repo) (rs : List Repo) (repo : Repo) (LD AB : String)
    (d1 d2 d3 d4 : Disk) (es1 es2 : List ZipEntry) (pe : ZipEntry)
    (E1 : List Event) (st1 : ZipState) (dval : String) (dvs : List String)
    (deps : List String)
    (hint : w.internet = true)
    (hlib : pyStrip lib = library)
    (hget : dictGet w.catalog library = some (r0 :: rs))
    (hres : resolveVersion (some (r0 :: rs)) library = .ok v)
    (hcache : cachePath library v ∉ disk)
    (hfind : (r0 :: rs).find? (fun r => r.version = v) = some repo)
    (hLD : LD = "./arduino-libs/" ++ repo.name ++ "@" ++ repo.version)
    (hAB : AB = removeSuffixZip repo.archiveFileName)
    (hm1 : mkdir disk LD = .ok d1)
    (hm2 : mkdir d1 (LD ++ "/src") = .ok d2)
    (hm3 : mkdir d2 (LD ++ "/lib") = .ok d3)
    (hm4 : mkdir d3 (LD ++ "/lib/lib") = .ok d4)
    (hzip : w.network repo.url = es1 ++ pe :: es2)
    (hes1 : processEntries (install_libraries w fuel) LD AB
      { deps := [], inDeps := [], arches := [], disk := d4 } es1 = (E1, .ok st1))
    (hsrc : (pyEnds pe.path ".cpp" || pyEnds pe.path ".h" || pyEnds pe.path ".c" ||
      pyEnds pe.path ".hpp") = false)
    (hprop : pyEnds pe.path "library.properties" = true)
    (hdep : propLineValues pe.content "depends=" = dval :: dvs)
    (hdeps : deps = (pySplit dval ',').map pyStrip) :
    (∀ (errEvs : List Event) (err : Err),
      install_libraries w fuel st1.disk deps = (errEvs, .error err) →
      install_libraries w (fuel + 1) disk [lib] =
        (Event.download repo.url :: (E1 ++ errEvs), .error err)) ∧
    (∀ (depEvs : List Event) (inD : List (String × String)) (dd : Disk)
        (aval : String) (avs : List String) (E2 : List Event) (stf : ZipState)
        (u : Unit),
      install_libraries w fuel st1.disk deps = (depEvs, .ok (inD, dd)) →
      propLineValues pe.content "architectures=" = aval :: avs →
      processEntries (install_libraries w fuel) LD AB
        { deps := deps, inDeps := inD, arches := pySplit aval ',', disk := dd }
        es2 = (E2, .ok stf) →
      iniStep w stf (diskAdd (diskAdd stf.disk (LD ++ "/src/main.cpp"))
        (LD ++ "/package.json")) = .ok u →
      ∃ out, install_libraries w (fuel + 1) disk [lib] =
        (Event.download repo.url :: (E1 ++ depEvs ++ E2 ++ [Event.toolchain LD]),
          out)) := by
  subst hdeps
  subst hLD
  subst hAB
  constructor
  · intro errEvs err hrec
    have hpe : processEntry (install_libraries w fuel)
        ("./arduino-libs/" ++ repo.name ++ "@" ++ repo.version)
        (removeSuffixZip repo.archiveFileName) st1 pe = (errEvs, .error err) := by
      simp only [processEntry, hsrc, Bool.false_eq_true, if_false, hprop, if_true,
        hdep, hrec]
    have hone : install_one w (install_libraries w fuel) disk lib =
        (Event.download repo.url :: (E1 ++ errEvs), .error err) := by
      simp only [install_one, hlib, hget, hres]
      rw [if_neg hcache]
      simp only [hfind, hm1, hm2, hm3, hm4, hzip]
      rw [processEntries_append_ok (install_libraries w fuel) _ _ es1 (pe :: es2)
        _ st1 E1 hes1]
      simp only [processEntries, hpe]
      simp
    simp only [install_libraries]
    rw [if_pos hint]
    simp only [install_list, hone]
  · intro depEvs inD dd aval avs E2 stf u hrec harch hes2 hbi
    have hpe : processEntry (install_libraries w fuel)
        ("./arduino-libs/" ++ repo.name ++ "@" ++ repo.version)
        (removeSuffixZip repo.archiveFileName) st1 pe =
        (depEvs, .ok { deps := (pySplit dval ',').map pyStrip, inDeps := inD,
                       arches := pySplit aval ',', disk := dd }) := by
      simp only [processEntry, hsrc, Bool.false_eq_true, if_false, hprop, if_true,
        hdep, hrec, harch]
    have hone : install_one w (install_libraries w fuel) disk lib =
        (Event.download repo.url :: (E1 ++ depEvs ++ E2 ++
          [Event.toolchain ("./arduino-libs/" ++ repo.name ++ "@" ++ repo.version)]),
         (install_one w (install_libraries w fuel) disk lib).2) := by
      simp only [install_one, hlib, hget, hres]
      rw [if_neg hcache]
      simp only [hfind, hm1, hm2, hm3, hm4, hzip]
      rw [processEntries_append_ok (install_libraries w fuel) _ _ es1 (pe :: es2)
        _ st1 E1 hes1]
      simp only [processEntries, hpe, hes2, hbi]
      by_cases hrc : (w.toolchain
          ("./arduino-libs/" ++ repo.name ++ "@" ++ repo.version)).returncode ≠ 0
      · rw [if_pos hrc]
        simp [List.append_assoc]
      · rw [if_neg hrc]
        simp [List.append_assoc]
    have hfst : (install_libraries w (fuel + 1) disk [lib]).1 =
        Event.download repo.url :: (E1 ++ depEvs ++ E2 ++
          [Event.toolchain ("./arduino-libs/" ++ repo.name ++ "@" ++ repo.version)]) := by
      simp only [install_libraries]
      rw [if_pos hint]
      simp only [install_list]
      rw [hone]
      dsimp only
      rcases h2 : (install_one w (install_libraries w fuel) disk lib).2 with e2 | p2
      · simp [h2]
      · rcases p2 with ⟨⟨k, vv⟩, ddk⟩
        simp [h2, install_list]
    refine ⟨(install_libraries w (fuel + 1) disk [lib]).2, ?_⟩
    rw [← hfst]

/-- Witness for C5: a concrete archive declaring depends on an unknown
name-at-version makes the whole install fail with that NotFound after the
download, with no toolchain event. -/
theorem c5_witness :
    install_libraries depWorld 2 [] ["Main"] =
      ([Event.download "um"], .error (.http 404 "Library Dep@9.9.9 not found")) := by
  have h := (c5_deps_before_compile depWorld 1 [] "Main" "Main" "1.0.0"
      mainRepo [] mainRepo "./arduino-libs/Main@1.0.0" "Main"
      ["./arduino-libs/Main@1.0.0"]
      ["./arduino-libs/Main@1.0.0/src", "./arduino-libs/Main@1.0.0"]
      ["./arduino-libs/Main@1.0.0/lib", "./arduino-libs/Main@1.0.0/src",
        "./arduino-libs/Main@1.0.0"]
      ["./arduino-libs/Main@1.0.0/lib/lib", "./arduino-libs/Main@1.0.0/lib",
        "./arduino-libs/Main@1.0.0/src", "./arduino-libs/Main@1.0.0"]
      [] [] mainProps []
      { deps := [], inDeps := [], arches := [],
        disk := ["./arduino-libs/Main@1.0.0/lib/lib", "./arduino-libs/Main@1.0.0/lib",
          "./arduino-libs/Main@1.0.0/src", "./arduino-libs/Main@1.0.0"] }
      "Dep@9.9.9" [] ["Dep@9.9.9"]
      rfl rfl rfl rfl (by decide) rfl rfl rfl rfl rfl rfl rfl rfl rfl
      (by decide) (by decide) rfl rfl).1
      [] (.http 404 "Library Dep@9.9.9 not found") rfl
  simpa using h

/-- One separator at most and at least one occurrence: the split has
exactly the text before the separator and the text after it. -/
theorem splitChars_no_sep (sep : Char) (l : List Char) (h : l.count sep = 0) :
    splitChars sep l = [l] := by
  induction l with
  | nil => rfl
  | cons c cs ih =>
    rw [List.count_cons] at h
    have hc : ¬ c = sep := by
      intro hcontra
      simp [hcontra] at h
    have hcs : cs.count sep = 0 := by omega
    simp only [splitChars, ih hcs]
    simp [hc]

theorem splitChars_single (sep : Char) (l : List Char)
    (h1 : sep ∈ l) (h2 : l.count sep ≤ 1) :
    splitChars sep l =
      [l.takeWhile (fun x => x ≠ sep), (l.dropWhile (fun x => x ≠ sep)).drop 1] := by
  induction l with
  | nil => simp at h1
  | cons c cs ih =>
    by_cases hc : c = sep
    · subst hc
      have hcs : cs.count c = 0 := by
        rw [List.count_cons] at h2
        simp at h2
        omega
      simp only [splitChars, splitChars_no_sep c cs hcs]
      simp
    · have h1' : sep ∈ cs := by
        rcases List.mem_cons.mp h1 with rfl | hm'
        · exact absurd rfl hc
        · exact hm'
      have h2' : cs.count sep ≤ 1 := by
        rw [List.count_cons] at h2
        omega
      simp only [splitChars, ih h1' h2']
      simp [hc]

theorem parsePropsGo_ok (lines : List String) (acc : List (String × String))
    (h : ∀ line ∈ lines, ((chars line).count '=') ≤ 1) :
    parsePropsGo acc lines = .ok (lines.foldl
      (fun m line =>
        if pyHasChar line '=' then dictInsert m (lineKey line) (lineVal line) else m)
      acc) := by
  induction lines generalizing acc with
  | nil => rfl
  | cons line rest ih =>
    have hline := h line (List.mem_cons_self line rest)
    have hrest : ∀ l ∈ rest, ((chars l).count '=') ≤ 1 :=
      fun l hl => h l (List.mem_cons_of_mem line hl)
    by_cases hin : pyHasChar line '=' = true
    · have hmem : '=' ∈ chars line := List.elem_iff.mp hin
      have hsplit : pySplit line '=' = [lineKey line, lineVal line] := by
        unfold pySplit lineKey lineVal
        rw [splitChars_single '=' (chars line) hmem hline]
        rfl
      simp only [parsePropsGo, hin, if_true, hsplit, List.foldl_cons]
      exact ih (dictInsert acc (lineKey line) (lineVal line)) hrest
    · simp only [parsePropsGo, List.foldl_cons, hin, Bool.false_eq_true, if_false]
      exact ih acc hrest

/-- C10: _parse_library_properties is total on inputs whose lines each hold
at most one equals sign, and there returns the dict binding, for each line
containing an equals sign, the text before it to the text after it (lines
without one ignored, later lines overwriting); an input holding a line with
two or more equals signs — a URL value — raises ValueError instead. -/
theorem c10_parse_properties :
    (∀ props : String,
        (∀ line ∈ pySplit props '\n', ((chars line).count '=') ≤ 1) →
        parse_library_properties props = .ok (claimPropsMap props)) ∧
    parse_library_properties "url=http://x=y" = .error .valueError := by
  constructor
  · intro props h
    unfold parse_library_properties claimPropsMap
    exact parsePropsGo_ok _ [] h
  · rfl

/-- Witness for C10 at a concrete well-formed properties file. -/
theorem c10_witness :
    parse_library_properties "depends=A, B\nname" = .ok [("depends", "A, B")] := by
  have h := (c10_parse_properties).1 "depends=A, B\nname" (by decide)
  exact h

/-- Comparing a key with itself yields eq. -/
theorem cmpKey_self (a : List Nat) : cmpKey a a = .eq := by
  induction a with
  | nil => rfl
  | cons x xs ih => simp [cmpKey, Nat.lt_irrefl, ih]

/-- Strictly greater one way is strictly less the other way. -/
theorem cmpKey_gt_iff (a b : List Nat) : cmpKey a b = .gt ↔ cmpKey b a = .lt := by
  induction a generalizing b with
  | nil => cases b <;> simp [cmpKey]
  | cons x xs ih =>
    cases b with
    | nil => simp [cmpKey]
    | cons y ys =>
      by_cases h1 : x < y
      · have h2 : ¬ y < x := by omega
        simp [cmpKey, h1, h2]
      · by_cases h2 : y < x
        · simp [cmpKey, h1, h2]
        · simp [cmpKey, h1, h2, ih ys]

/-- Transitivity of the at-most relation induced by the comparison. -/
theorem cmpKey_le_trans (a b c : List Nat) (hab : cmpKey a b ≠ .gt)
    (hbc : cmpKey b c ≠ .gt) : cmpKey a c ≠ .gt := by
  induction a generalizing b c with
  | nil => cases c <;> simp [cmpKey]
  | cons x xs ih =>
    cases b with
    | nil => exact (hab rfl).elim
    | cons y ys =>
      cases c with
      | nil => exact (hbc rfl).elim
      | cons z zs =>
        have hab' : x < y ∨ (¬ x < y ∧ ¬ y < x ∧ cmpKey xs ys ≠ .gt) := by
          by_cases h1 : x < y
          · exact Or.inl h1
          · by_cases h2 : y < x
            · exact absurd (by simp [cmpKey, h1, h2]) hab
            · exact Or.inr ⟨h1, h2, by simpa [cmpKey, h1, h2] using hab⟩
        have hbc' : y < z ∨ (¬ y < z ∧ ¬ z < y ∧ cmpKey ys zs ≠ .gt) := by
          by_cases h1 : y < z
          · exact Or.inl h1
          · by_cases h2 : z < y
            · exact absurd (by simp [cmpKey, h1, h2]) hbc
            · exact Or.inr ⟨h1, h2, by simpa [cmpKey, h1, h2] using hbc⟩
        rcases hab' with h1 | ⟨h1a, h1b, h1c⟩
        · rcases hbc' with h2 | ⟨h2a, h2b, h2c⟩
          · have : x < z := by omega
            simp [cmpKey, this]
          · have : x < z := by omega
            simp [cmpKey, this]
        · rcases hbc' with h2 | ⟨h2a, h2b, h2c⟩
          · have : x < z := by omega
            simp [cmpKey, this]
          · have hxz : ¬ x < z := by omega
            have hzx : ¬ z < x := by omega
            simpa [cmpKey, hxz, hzx] using ih ys zs h1c h2c

/-- Specification of the max loop: the result is drawn from the candidates,
its key is at least the starting key, and at least every candidate key. -/
theorem maxVersionGo_spec :
    ∀ (rest : List String) (cur : String) (k : List Nat) (v : String),
      versionKey cur = .ok k →
      maxVersionGo cur k rest = .ok v →
      (v = cur ∨ v ∈ rest) ∧
      ∃ kv, versionKey v = .ok kv ∧ cmpKey k kv ≠ .gt ∧
        ∀ u ∈ rest, ∀ ku, versionKey u = .ok ku → cmpKey ku kv ≠ .gt := by
  intro rest
  induction rest with
  | nil =>
    intro cur k v hk hmax
    simp only [maxVersionGo] at hmax
    cases hmax
    exact ⟨Or.inl rfl, k, hk, by simp [cmpKey_self], by simp⟩
  | cons u us ih =>
    intro cur k v hk hmax
    cases hu : versionKey u with
    | error e =>
      simp only [maxVersionGo, hu] at hmax
      exact absurd hmax (by simp)
    | ok ku =>
      simp only [maxVersionGo, hu] at hmax
      by_cases hcmp : cmpKey k ku = .lt
      · rw [if_pos hcmp] at hmax
        obtain ⟨hmem, kv, hkv, hle, hbound⟩ := ih u ku v hu hmax
        refine ⟨?_, kv, hkv, ?_, ?_⟩
        · rcases hmem with rfl | hm
          · exact Or.inr (List.mem_cons_self _ _)
          · exact Or.inr (List.mem_cons_of_mem _ hm)
        · have hkku : cmpKey k ku ≠ .gt := by
            rw [hcmp]
            simp
          exact cmpKey_le_trans k ku kv hkku hle
        · intro w hw kw hkw
          rcases List.mem_cons.mp hw with rfl | hw'
          · rw [hu] at hkw
            cases hkw
            exact hle
          · exact hbound w hw' kw hkw
      · rw [if_neg hcmp] at hmax
        obtain ⟨hmem, kv, hkv, hle, hbound⟩ := ih cur k v hk hmax
        refine ⟨?_, kv, hkv, hle, ?_⟩
        · rcases hmem with rfl | hm
          · exact Or.inl rfl
          · exact Or.inr (List.mem_cons_of_mem _ hm)
        · intro w hw kw hkw
          rcases List.mem_cons.mp hw with rfl | hw'
          · rw [hu] at hkw
            cases hkw
            have h1 : cmpKey ku k ≠ .gt := by
              intro hgt
              exact hcmp ((cmpKey_gt_iff ku k).mp hgt)
            exact cmpKey_le_trans ku k kv h1 hle
          · exact hbound w hw' kw hkw

/-- Specification of _get_latest_version: a returned version belongs to the
list and its key is maximal among the keys of the list. -/
theorem get_latest_version_spec (versions : List String) (v : String)
    (h : get_latest_version versions = .ok v) :
    v ∈ versions ∧ ∃ kv, versionKey v = .ok kv ∧
      ∀ u ∈ versions, ∀ ku, versionKey u = .ok ku → cmpKey ku kv ≠ .gt := by
  cases versions with
  | nil => exact absurd h (by simp [get_latest_version])
  | cons w rest =>
    cases hw : versionKey w with
    | error e =>
      simp only [get_latest_version, hw] at h
      exact absurd h (by simp)
    | ok k =>
      simp only [get_latest_version, hw] at h
      obtain ⟨hmem, kv, hkv, hle, hbound⟩ := maxVersionGo_spec rest w k v hw h
      refine ⟨?_, kv, hkv, ?_⟩
      · rcases hmem with rfl | hm
        · exact List.mem_cons_self _ _
        · exact List.mem_cons_of_mem _ hm
      · intro u hu ku hku
        rcases List.mem_cons.mp hu with rfl | hu'
        · rw [hw] at hku
          cases hku
          exact hle
        · exact hbound u hu' ku hku

/-- C3: resolving a bare-name request with at least one catalog entry picks
the maximum of the known versions under numeric comparison of the dot
components after non-numeric characters are stripped — resolve_bare is the
else branch of sketch.py lines 78-79, invoked from the library loop — and
in particular the snapshot offering versions 1.2.0, 1.10.0 and 2.0.0
resolves to 2.0.0. -/
theorem c3_latest_version :
    (∀ (repos : List Repo) (v : String), resolve_bare repos = .ok v →
      v ∈ repos.map (fun r => stripNonNumeric r.version) ∧
      ∃ kv, versionKey v = .ok kv ∧
        ∀ u ∈ repos.map (fun r => stripNonNumeric r.version), ∀ ku,
          versionKey u = .ok ku → cmpKey ku kv ≠ .gt) ∧
    resolve_bare threeVersionRepos = .ok "2.0.0" := by
  constructor
  · intro repos v h
    exact get_latest_version_spec _ v h
  · rfl

/-- Witness for C3: the resolved version of the three-version snapshot is
one of the stripped known versions. -/
theorem c3_witness :
    "2.0.0" ∈ threeVersionRepos.map (fun r => stripNonNumeric r.version) :=
  ((c3_latest_version).1 threeVersionRepos "2.0.0" rfl).1

/-- Setting an index trades its old entry for the new one in the count. -/
theorem countP_set_swap (p : Phase → Bool) :
    ∀ (l : List Phase) (j : Nat) (a : Phase), l.get? j = some a → ∀ b : Phase,
      (l.set j b).countP p + (if p a then 1 else 0) =
        l.countP p + (if p b then 1 else 0) := by
  intro l
  induction l with
  | nil =>
    intro j a h b
    simp at h
  | cons x xs ih =>
    intro j a h b
    cases j with
    | zero =>
      have hx : x = a := by simpa using h
      subst hx
      simp only [List.set, List.countP_cons]
      by_cases hpx : p x = true <;> by_cases hpb : p b = true <;>
        simp [hpx, hpb] <;> omega
    | succ j =>
      have h' : xs.get? j = some a := by simpa using h
      have := ih j a h' b
      simp only [List.set, List.countP_cons]
      by_cases hpx : p x = true <;> simp [hpx] <;> omega

/-- No permit is in use at startup. -/
theorem countP_replicate_false (p : Phase → Bool) (x : Phase) (hx : p x = false) :
    ∀ m : Nat, (List.replicate m x).countP p = 0 := by
  intro m
  induction m with
  | zero => rfl
  | succ m ih => simp [List.replicate, List.countP_cons, hx, ih]

/-- Counting a stronger predicate counts at most as much. -/
theorem countP_imp_le (p q : Phase → Bool) (h : ∀ a, p a = true → q a = true) :
    ∀ l : List Phase, l.countP p ≤ l.countP q := by
  intro l
  induction l with
  | nil => simp
  | cons x xs ih =>
    simp only [List.countP_cons]
    by_cases hpx : p x = true
    · simp only [hpx, h x hpx, if_true]
      omega
    · by_cases hqx : q x = true <;> simp [hpx, hqx] <;> omega

/-- Invariant of the compile-endpoint semantics: free permits plus permits
in use always equal the configured pool size, and the job count never
changes. -/
theorem pool_invariant (n m : Nat) (s : PoolState) (h : PoolReach n m s) :
    s.avail + inUseCount s = n ∧ s.jobs.length = m := by
  induction h with
  | refl =>
    constructor
    · simp [initPool, inUseCount, countP_replicate_false Phase.inUse Phase.idle rfl]
    · simp [initPool]
  | tail hsteps hstep ih =>
    obtain ⟨ih1, ih2⟩ := ih
    cases hstep with
    | arrive j hj =>
      have hs := countP_set_swap Phase.inUse _ j _ hj Phase.waiting
      simp only [Phase.inUse] at hs
      constructor
      · simp only [inUseCount] at ih1 ⊢
        simp at hs
        omega
      · simpa using ih2
    | cacheHit j hj =>
      have hs := countP_set_swap Phase.inUse _ j _ hj Phase.done
      simp only [Phase.inUse] at hs
      constructor
      · simp only [inUseCount] at ih1 ⊢
        simp at hs
        omega
      · simpa using ih2
    | acquire j a hj ha =>
      have hs := countP_set_swap Phase.inUse _ j _ hj Phase.holding
      simp only [Phase.inUse] at hs
      constructor
      · simp only [inUseCount] at ih1 ⊢
        simp at hs
        omega
      · simpa using ih2
    | spawn j hj =>
      have hs := countP_set_swap Phase.inUse _ j _ hj Phase.running
      simp only [Phase.inUse] at hs
      constructor
      · simp only [inUseCount] at ih1 ⊢
        simp at hs
        omega
      · simpa using ih2
    | finish j hj =>
      have hs := countP_set_swap Phase.inUse _ j _ hj Phase.holding
      simp only [Phase.inUse] at hs
      constructor
      · simp only [inUseCount] at ih1 ⊢
        simp at hs
        omega
      · simpa using ih2
    | release j hj =>
      have hs := countP_set_swap Phase.inUse _ j _ hj Phase.done
      simp only [Phase.inUse] at hs
      constructor
      · simp only [inUseCount] at ih1 ⊢
        simp at hs
        omega
      · simpa using ih2

/-- C1: in every state the interleaved compile endpoint can reach, at most
n toolchain subprocesses are live (n the configured pool size of the
semaphore), when all n permits are in use no free permit remains — so a
toolchain invocation by a further job, which must first acquire, cannot
start — and the only step that frees a permit is a holder releasing it:
the n-plus-first job toolchain invocation starts only after one of the
first n jobs releases its slot. -/
theorem c1_semaphore_bound (n m : Nat) (s : PoolState) (h : PoolReach n m s) :
    runningCount s ≤ n ∧
    (inUseCount s = n → s.avail = 0) ∧
    (∀ t u, PoolStep t u → t.avail < u.avail →
      ∃ j, t.jobs.get? j = some Phase.holding ∧
        u = { avail := t.avail + 1, jobs := t.jobs.set j Phase.done }) := by
  obtain ⟨hinv, hlen⟩ := pool_invariant n m s h
  refine ⟨?_, ?_, ?_⟩
  · have hmono : runningCount s ≤ inUseCount s := by
      unfold runningCount inUseCount
      exact countP_imp_le Phase.isRunning Phase.inUse
        (fun a => by cases a <;> simp [Phase.isRunning, Phase.inUse]) s.jobs
    omega
  · intro he
    omega
  · intro t u hstep hlt
    cases hstep with
    | arrive j hj =>
      simp at hlt
    | cacheHit j hj =>
      simp at hlt
    | acquire j a hj ha =>
      simp only at hlt
      omega
    | spawn j hj =>
      simp at hlt
    | finish j hj =>
      simp at hlt
    | release j hj =>
      exact ⟨j, hj, rfl⟩

/-- Witness for C1 at the initial state of a one-permit pool with two
requests. -/
theorem c1_witness :
    runningCount (initPool 1 2) ≤ 1 ∧
    (inUseCount (initPool 1 2) = 1 → (initPool 1 2).avail = 0) :=
  ⟨(c1_semaphore_bound 1 2 (initPool 1 2) Relation.ReflTransGen.refl).1,
   (c1_semaphore_bound 1 2 (initPool 1 2) Relation.ReflTransGen.refl).2.1⟩

/-- C4: a bare-name request absent from the library index does not fail
with the structured 404 NotFound error: sketch.py line 78 iterates the None
returned by the index lookup, raising TypeError before the NotFound guard
of line 86 can run; only the name-at-version form reaches the 404. -/
theorem c4_missing_name :
    install_libraries emptyIndexWorld 2 [] ["Foo"] = ([], .error .typeError) ∧
    install_libraries emptyIndexWorld 2 [] ["Foo@1.0.0"] =
      ([], .error (.http 404 "Library Foo@1.0.0 not found")) :=
  ⟨rfl, rfl⟩

end Leaphy
